import Mathlib

/-!
Verification of the CourseCore repository: a shallow embedding of the two
core components, the reconciliation merge of canvas_sync.py (function sync,
lines 216-295) and the notification milestone loop of check_notifications.py
(function run_checks, lines 96-145), together with proofs of the frozen
claims about them.

Modelling conventions:
  - Calendar dates are integers (days); the Python expression
    (due - today).days becomes integer subtraction.
  - An assignment record is a JSON object; the optional keys that the code
    probes with dict membership or .get are Option fields.  A due_date of
    none models a missing or unparseable due_date string (the
    except-continue at check_notifications.py line 100).
  - The Python dict by_canvas_id is an association list with dict insertion
    semantics: replacing a present key keeps its position, a new key is
    appended; iteration order is list order.
  - uuid.uuid4() is modelled by an explicit supply of identifiers,
    a function from the creation counter to a string.
  - Network fetches happen before the merge; their results (course_map,
    canvas_upcoming, submitted_canvas_ids) are inputs of the merge.  The
    fatal course-list fetch of line 137 is modelled in syncOp as an Except
    value so that the no-partial-write behaviour is expressible.
-/

namespace CourseCore

/-- An assignment record as stored in assignments.json.  Field names follow
the JSON keys used by the code. -/
structure Record where
  id : String
  canvas_id : Option Nat
  title : Option String
  course : Option String
  due_date : Option Int
  notifications_sent : List String
  source : Option String
  completed : Bool
  deriving DecidableEq

/-- One entry of canvas_upcoming as built at canvas_sync.py lines 181-186:
canvas_id, title, course name and the already-converted local due date. -/
structure RemoteAssignment where
  canvas_id : Nat
  title : String
  course : String
  due_date : Int
  deriving DecidableEq

/-- The summary dict returned by sync(), lines 287-295. -/
structure Summary where
  ok : Bool
  added : Nat
  updated : Nat
  removed : Nat
  auto_completed : Nat
  total_canvas : Nat
  courses : Nat
  deriving DecidableEq

/-- Python-dict insertion for by_canvas_id: if the key is present its value
is replaced in place (position kept), otherwise the pair is appended. -/
def insertAL : List (Nat × Record) → Nat → Record → List (Nat × Record)
  | [], k, v => [(k, v)]
  | p :: rest, k, v => if p.1 = k then (k, v) :: rest else p :: insertAL rest k v

/-- Python-dict lookup for by_canvas_id. -/
def lookupAL : List (Nat × Record) → Nat → Option Record
  | [], _ => none
  | p :: rest, k => if p.1 = k then some p.2 else lookupAL rest k

/-- The partition loop of canvas_sync.py lines 223-227: every row carrying a
canvas_id key goes into the by_canvas_id dict. -/
def buildByCanvasId (existing : List Record) : List (Nat × Record) :=
  existing.foldl
    (fun m r =>
      match r.canvas_id with
      | some cid => insertAL m cid r
      | none => m)
    []

/-- The other half of the same partition loop: rows without a canvas_id key
are collected, in order, into the manual list. -/
def manualRows (existing : List Record) : List Record :=
  existing.filter fun r => r.canvas_id.isNone

/-- The in-place overwrite of lines 245-248: remote is authoritative for
title, course and due_date, source is stamped canvas, while completed and
notifications_sent are preserved untouched (line 249). -/
def updRow (row : Record) (ca : RemoteAssignment) : Record :=
  { row with
      title := some ca.title
      course := some ca.course
      due_date := some ca.due_date
      source := some "canvas" }

/-- The freshly synthesized row of lines 254-263. -/
def freshRow (newId : String) (ca : RemoteAssignment) : Record :=
  { id := newId
    canvas_id := some ca.canvas_id
    title := some ca.title
    course := some ca.course
    due_date := some ca.due_date
    notifications_sent := []
    source := some "canvas"
    completed := false }

/-- Loop state of the upcoming loop (lines 229-264): the by_canvas_id dict
(whose row objects the code mutates in place), new_canvas_rows so far, the
added and updated counters, processed_ids, and the uuid supply counter. -/
structure PassSt where
  map : List (Nat × Record)
  rows : List Record
  added : Nat
  updated : Nat
  processed : List Nat
  ctr : Nat

/-- One iteration of the upcoming loop, lines 235-264.  The Python code
appends the mutated dict row object itself to new_canvas_rows; here the
value of the row at this point is appended and the dict is updated, which
agrees with the code except that a later duplicate canvas_id in
canvas_upcoming would, through aliasing, also rewrite the copy appended
earlier (no claim depends on those field values). -/
def stepUpcoming (fresh : Nat → String) (ca : RemoteAssignment) (st : PassSt) : PassSt :=
  match lookupAL st.map ca.canvas_id with
  | some row =>
      { st with
          map := insertAL st.map ca.canvas_id (updRow row ca)
          rows := st.rows ++ [updRow row ca]
          updated :=
            if row.title = some ca.title ∧ row.course = some ca.course ∧
                row.due_date = some ca.due_date
            then st.updated else st.updated + 1
          processed := st.processed ++ [ca.canvas_id] }
  | none =>
      { st with
          rows := st.rows ++ [freshRow (fresh st.ctr) ca]
          added := st.added + 1
          processed := st.processed ++ [ca.canvas_id]
          ctr := st.ctr + 1 }

/-- The whole upcoming loop of lines 234-264. -/
def passUpcoming (fresh : Nat → String) : List RemoteAssignment → PassSt → PassSt
  | [], st => st
  | ca :: rest, st => passUpcoming fresh rest (stepUpcoming fresh ca st)

/-- The leftover loop of lines 266-282 over the (possibly updated) dict
entries: skip processed ids; a submitted id is kept and force-completed
(counting auto_completed only when it was not completed before); an already
completed row is kept; anything else is removed.  Returns the appended rows
together with the auto_completed and removed counters. -/
def passLeftovers (submitted processed : List Nat) :
    List (Nat × Record) → List Record × Nat × Nat
  | [] => ([], 0, 0)
  | (cid, row) :: rest =>
    let r := passLeftovers submitted processed rest
    if cid ∈ processed then r
    else if cid ∈ submitted then
      if row.completed then (row :: r.1, r.2.1, r.2.2)
      else ({ row with completed := true } :: r.1, r.2.1 + 1, r.2.2)
    else if row.completed then (row :: r.1, r.2.1, r.2.2)
    else (r.1, r.2.1, r.2.2 + 1)

/-- State after the upcoming loop, started from the freshly partitioned
dict, an empty new_canvas_rows and zeroed counters (lines 229-232). -/
def syncStA (fresh : Nat → String) (canvas_upcoming : List RemoteAssignment)
    (existing : List Record) : PassSt :=
  passUpcoming fresh canvas_upcoming
    { map := buildByCanvasId existing
      rows := []
      added := 0
      updated := 0
      processed := []
      ctr := 0 }

/-- Result of the leftover loop inside sync(). -/
def syncLF (fresh : Nat → String) (canvas_upcoming : List RemoteAssignment)
    (submitted_canvas_ids : List Nat) (existing : List Record) :
    List Record × Nat × Nat :=
  let stA := syncStA fresh canvas_upcoming existing
  passLeftovers submitted_canvas_ids stA.processed stA.map

/-- The merge step of sync(), canvas_sync.py lines 216-295, as a pure
function of the network-derived inputs (course_map from lines 146-154,
canvas_upcoming and submitted_canvas_ids from lines 156-214) and the
existing assignments.json contents.  Returns the replacement record list
(manual rows first, line 285) and the summary dict. -/
def sync (fresh : Nat → String) (course_map : List (Nat × String))
    (canvas_upcoming : List RemoteAssignment) (submitted_canvas_ids : List Nat)
    (existing : List Record) : List Record × Summary :=
  let stA := syncStA fresh canvas_upcoming existing
  let lf := syncLF fresh canvas_upcoming submitted_canvas_ids existing
  let new_canvas_rows := stA.rows ++ lf.1
  (manualRows existing ++ new_canvas_rows,
   { ok := true
     added := stA.added
     updated := stA.updated
     removed := lf.2.2
     auto_completed := lf.2.1
     total_canvas := new_canvas_rows.length
     courses := course_map.length })

/-- sync() including its fatal phase: the course-list fetch of line 137 is
not wrapped in try-except, so a RuntimeError from _get_all (HTTP error,
auth failure, unreachable host) propagates out of sync() before
_save_assignments at line 285 ever runs.  The store component of the result
is the assignments.json contents after the operation. -/
def syncOp (courseFetch : Except String (List (Nat × String)))
    (fresh : Nat → String) (canvas_upcoming : List RemoteAssignment)
    (submitted_canvas_ids : List Nat) (store : List Record) :
    List Record × Except String Summary :=
  match courseFetch with
  | .error e => (store, .error e)
  | .ok cm =>
      let r := sync fresh cm canvas_upcoming submitted_canvas_ids store
      (r.1, .ok r.2)

/-- Loop body of run_checks, check_notifications.py lines 96-138, for one
assignment: skip when the due date is missing or unparseable (line 100) or
past due (line 108); otherwise at most one milestone of the elif chain
fires, gated on membership in notifications_sent; the fired tag is appended
to notifications_sent.  Returns the updated record and the list of
milestone tags fired for it (notification delivery itself is an external
side effect). -/
def checkOne (today : Int) (r : Record) : Record × List String :=
  match r.due_date with
  | none => (r, [])
  | some due =>
    let days := due - today
    let sent := r.notifications_sent
    if days < 0 then (r, [])
    else if days = 3 ∧ "3_days" ∉ sent then
      ({ r with notifications_sent := sent ++ ["3_days"] }, ["3_days"])
    else if days = 1 ∧ "1_day" ∉ sent then
      ({ r with notifications_sent := sent ++ ["1_day"] }, ["1_day"])
    else if days = 0 ∧ "morning" ∉ sent then
      ({ r with notifications_sent := sent ++ ["morning"] }, ["morning"])
    else (r, [])

/-- The record part of checkOne: what one run_checks pass leaves in
assignments.json for one record. -/
def checkStep (today : Int) (r : Record) : Record :=
  (checkOne today r).1

/-- run_checks over the whole assignment list: records are processed
independently; the fired tag lists are positional. -/
def runChecks (today : Int) (rs : List Record) : List Record × List (List String) :=
  (rs.map fun r => (checkOne today r).1, rs.map fun r => (checkOne today r).2)

/-- Follows the words of the spec for claim C2 only, to be compared with
the summary produced by sync: the number of distinct course_name values
occurring among the entries of remote_upcoming. -/
def specCourseCount (ups : List RemoteAssignment) : Nat :=
  (ups.map fun a => a.course).dedup.length

/-- Invariant of the by_canvas_id dict: every entry is keyed by the
canvas_id of its row, and every row keeps the id and completed flag of some
row of the existing input. -/
def MapOK (existing : List Record) (m : List (Nat × Record)) : Prop :=
  ∀ p ∈ m, p.2.canvas_id = some p.1 ∧
    ∃ r ∈ existing, p.2.id = r.id ∧ p.2.completed = r.completed

/-- Invariant of the rows emitted by the upcoming loop: each carries a
canvas_id, and either keeps the id and completed flag of some existing row
or is a fresh row (uncompleted, with an id from the uuid supply). -/
def RowOK (fresh : Nat → String) (existing : List Record) (x : Record) : Prop :=
  x.canvas_id ≠ none ∧
    ((∃ r ∈ existing, x.id = r.id ∧ x.completed = r.completed) ∨
      (∃ n, x.id = fresh n ∧ x.completed = false))

/-- The Bool predicate over dict entries that the leftover loop counts in
auto_completed: not handled by the upcoming loop, known submitted or
graded, and not yet completed. -/
def autoPred (upcomingIds submitted : List Nat) (p : Nat × Record) : Bool :=
  !decide (p.1 ∈ upcomingIds) && decide (p.1 ∈ submitted) && !p.2.completed

/-- Sample record used by concrete witness instances below. -/
def wRec : Record :=
  { id := "a1"
    canvas_id := some 1
    title := some "Essay"
    course := some "ENG101"
    due_date := some 10
    notifications_sent := []
    source := some "canvas"
    completed := true }

/-- Sample remote entry matching wRec by canvas_id but with fresh fields. -/
def wCa : RemoteAssignment :=
  { canvas_id := 1, title := "Essay v2", course := "ENG101", due_date := 11 }

/-- Sample uncompleted record with canvas_id 7, used by witnesses. -/
def wRec7 : Record :=
  { id := "b2"
    canvas_id := some 7
    title := some "Lab"
    course := some "BIO200"
    due_date := some 12
    notifications_sent := []
    source := some "canvas"
    completed := false }

/-- Sample record with canvas_id 9, used by the C10 witness. -/
def wRec9 : Record :=
  { id := "c3"
    canvas_id := some 9
    title := some "Quiz"
    course := some "MATH140"
    due_date := some 9
    notifications_sent := ["3_days"]
    source := some "canvas"
    completed := false }

/-- Sample remote entry matching wRec9. -/
def wCa9 : RemoteAssignment :=
  { canvas_id := 9, title := "Quiz 2", course := "MATH140", due_date := 14 }

/-- Sample record due in three days from day 0, nothing sent yet. -/
def wDue3 : Record :=
  { id := "d4"
    canvas_id := none
    title := some "Reading"
    course := some "HIST101"
    due_date := some 3
    notifications_sent := []
    source := none
    completed := false }

/-- Sample record already past due on day 5. -/
def wPast : Record :=
  { id := "e5"
    canvas_id := none
    title := some "Old"
    course := some "HIST101"
    due_date := some 0
    notifications_sent := ["3_days"]
    source := none
    completed := false }

/-! Association list lemmas for the by_canvas_id dict. -/

theorem lookupAL_mem {m : List (Nat × Record)} {k : Nat} {v : Record}
    (h : lookupAL m k = some v) : (k, v) ∈ m := by
  induction m with
  | nil => simp [lookupAL] at h
  | cons p rest ih =>
    obtain ⟨a, b⟩ := p
    by_cases hk : a = k
    · simp only [lookupAL, hk, if_pos] at h
      cases h
      subst hk
      exact List.mem_cons_self _ _
    · simp only [lookupAL, hk, if_neg, not_false_iff] at h
      exact List.mem_cons_of_mem _ (ih h)

theorem lookupAL_insertAL_ne (m : List (Nat × Record)) (k j : Nat) (v : Record)
    (h : k ≠ j) : lookupAL (insertAL m k v) j = lookupAL m j := by
  induction m with
  | nil => simp [insertAL, lookupAL, h]
  | cons p rest ih =>
    by_cases hk : p.1 = k
    · simp only [insertAL, hk, if_pos]
      have hj : p.1 ≠ j := by rw [hk]; exact h
      simp [lookupAL, h, hj]
    · simp only [insertAL, hk, if_neg, not_false_iff]
      by_cases hj : p.1 = j
      · simp [lookupAL, hj]
      · simp [lookupAL, hj, ih]

theorem mem_insertAL {m : List (Nat × Record)} {k : Nat} {v : Record}
    {p : Nat × Record} (h : p ∈ insertAL m k v) : p = (k, v) ∨ p ∈ m := by
  induction m with
  | nil => simpa [insertAL] using h
  | cons q rest ih =>
    by_cases hk : q.1 = k
    · simp only [insertAL, hk, if_pos] at h
      rcases List.mem_cons.mp h with h1 | h1
      · exact Or.inl h1
      · exact Or.inr (List.mem_cons_of_mem _ h1)
    · simp only [insertAL, hk, if_neg, not_false_iff] at h
      rcases List.mem_cons.mp h with h1 | h1
      · exact Or.inr (h1 ▸ List.mem_cons_self _ _)
      · rcases ih h1 with h2 | h2
        · exact Or.inl h2
        · exact Or.inr (List.mem_cons_of_mem _ h2)

theorem filter_insertAL (pred : Nat × Record → Bool) (m : List (Nat × Record))
    (k : Nat) (v : Record) (h : ∀ w : Record, pred (k, w) = false) :
    (insertAL m k v).filter pred = m.filter pred := by
  induction m with
  | nil => simp [insertAL, List.filter, h v]
  | cons q rest ih =>
    obtain ⟨a, b⟩ := q
    by_cases hk : a = k
    · subst hk
      simp only [insertAL, if_pos]
      simp [List.filter, h v, h b]
    · simp only [insertAL, hk, if_neg, not_false_iff]
      simp only [List.filter_cons]
      rw [ih]

/-- Generic invariant transfer through the partition fold building
by_canvas_id. -/
theorem build_aux (Q : Nat × Record → Prop) :
    ∀ (l : List Record) (m : List (Nat × Record)),
      (∀ p ∈ m, Q p) →
      (∀ r ∈ l, ∀ cid, r.canvas_id = some cid → Q (cid, r)) →
      ∀ p ∈ l.foldl
        (fun m r =>
          match r.canvas_id with
          | some cid => insertAL m cid r
          | none => m) m, Q p := by
  intro l
  induction l with
  | nil => intro m hm _ p hp; exact hm p hp
  | cons r rest ih =>
    intro m hm hl p hp
    simp only [List.foldl_cons] at hp
    refine ih _ ?_ (fun s hs => hl s (List.mem_cons_of_mem _ hs)) p hp
    intro q hq
    cases hc : r.canvas_id with
    | none => simp only [hc] at hq; exact hm q hq
    | some cid =>
      simp only [hc] at hq
      rcases mem_insertAL hq with h1 | h1
      · exact h1 ▸ hl r (List.mem_cons_self _ _) cid hc
      · exact hm q h1

theorem build_MapOK (existing : List Record) :
    MapOK existing (buildByCanvasId existing) := by
  intro p hp
  refine build_aux
    (fun p => p.2.canvas_id = some p.1 ∧
      ∃ r ∈ existing, p.2.id = r.id ∧ p.2.completed = r.completed)
    existing [] (by simp) ?_ p hp
  intro r hr cid hc
  exact ⟨hc, r, hr, rfl, rfl⟩

/-! Lemmas about the upcoming loop. -/

theorem PU_processed (fresh : Nat → String) (ups : List RemoteAssignment) :
    ∀ (st : PassSt) (cid : Nat),
      cid ∈ (passUpcoming fresh ups st).processed ↔
        cid ∈ st.processed ∨ cid ∈ ups.map fun a => a.canvas_id := by
  induction ups with
  | nil => intro st cid; simp [passUpcoming]
  | cons ca rest ih =>
    intro st cid
    simp only [passUpcoming, List.map_cons, List.mem_cons]
    rw [ih]
    cases hl : lookupAL st.map ca.canvas_id <;>
      simp [stepUpcoming, hl, List.mem_append] <;> tauto

theorem PU_lookup (fresh : Nat → String) (ups : List RemoteAssignment) :
    ∀ (st : PassSt) (cid : Nat), (cid ∉ ups.map fun a => a.canvas_id) →
      lookupAL (passUpcoming fresh ups st).map cid = lookupAL st.map cid := by
  induction ups with
  | nil => intro st cid _; simp [passUpcoming]
  | cons ca rest ih =>
    intro st cid h
    simp only [List.map_cons, List.mem_cons, not_or] at h
    obtain ⟨hne, hrest⟩ := h
    simp only [passUpcoming]
    rw [ih _ cid hrest]
    cases hl : lookupAL st.map ca.canvas_id with
    | none => simp [stepUpcoming, hl]
    | some row =>
      simp only [stepUpcoming, hl]
      exact lookupAL_insertAL_ne _ _ _ _ (fun hc => hne hc.symm)

theorem PU_filter (fresh : Nat → String) (ups : List RemoteAssignment)
    (pred : Nat × Record → Bool)
    (h : ∀ ca ∈ ups, ∀ w : Record, pred (ca.canvas_id, w) = false) :
    ∀ st : PassSt,
      ((passUpcoming fresh ups st).map).filter pred = st.map.filter pred := by
  induction ups with
  | nil => intro st; simp [passUpcoming]
  | cons ca rest ih =>
    intro st
    simp only [passUpcoming]
    rw [ih fun c hc => h c (List.mem_cons_of_mem _ hc)]
    cases hl : lookupAL st.map ca.canvas_id with
    | none => simp [stepUpcoming, hl]
    | some row =>
      simp only [stepUpcoming, hl]
      exact filter_insertAL pred _ _ _ (h ca (List.mem_cons_self _ _))

theorem PU_rows_mono (fresh : Nat → String) (ups : List RemoteAssignment) :
    ∀ (st : PassSt) (r : Record), r ∈ st.rows →
      r ∈ (passUpcoming fresh ups st).rows := by
  induction ups with
  | nil => intro st r h; simpa [passUpcoming] using h
  | cons ca rest ih =>
    intro st r h
    simp only [passUpcoming]
    refine ih _ r ?_
    cases hl : lookupAL st.map ca.canvas_id <;>
      simp [stepUpcoming, hl, List.mem_append, h]

theorem PU_hits (fresh : Nat → String) (ups : List RemoteAssignment) :
    ∀ (st : PassSt) (ca : RemoteAssignment) (r : Record), ca ∈ ups →
      ((ups.map fun a => a.canvas_id).Nodup) →
      lookupAL st.map ca.canvas_id = some r →
      updRow r ca ∈ (passUpcoming fresh ups st).rows := by
  induction ups with
  | nil => intro st ca r h; exact absurd h (List.not_mem_nil ca)
  | cons b rest ih =>
    intro st ca r hmem hnod hl
    simp only [List.map_cons, List.nodup_cons] at hnod
    obtain ⟨hb, hrest⟩ := hnod
    rcases List.mem_cons.mp hmem with rfl | hmem2
    · simp only [passUpcoming, stepUpcoming, hl]
      refine PU_rows_mono fresh rest _ _ ?_
      simp [List.mem_append]
    · have hne : b.canvas_id ≠ ca.canvas_id := by
        intro hc
        exact hb (hc ▸ List.mem_map_of_mem (fun a => a.canvas_id) hmem2)
      simp only [passUpcoming]
      refine ih _ ca r hmem2 hrest ?_
      cases hlb : lookupAL st.map b.canvas_id with
      | none => simpa [stepUpcoming, hlb] using hl
      | some row =>
        simp only [stepUpcoming, hlb]
        rw [lookupAL_insertAL_ne _ _ _ _ hne]
        exact hl

theorem PU_inv (fresh : Nat → String) (existing : List Record)
    (ups : List RemoteAssignment) :
    ∀ st : PassSt, MapOK existing st.map →
      (∀ x ∈ st.rows, RowOK fresh existing x) →
      MapOK existing (passUpcoming fresh ups st).map ∧
        ∀ x ∈ (passUpcoming fresh ups st).rows, RowOK fresh existing x := by
  induction ups with
  | nil => intro st hm hr; exact ⟨hm, hr⟩
  | cons ca rest ih =>
    intro st hm hr
    simp only [passUpcoming]
    refine ih _ ?_ ?_
    · cases hl : lookupAL st.map ca.canvas_id with
      | none => simpa [stepUpcoming, hl] using hm
      | some row =>
        simp only [stepUpcoming, hl]
        intro p hp
        rcases mem_insertAL hp with h1 | h1
        · subst h1
          obtain ⟨hcid, r0, hr0, hid, hcomp⟩ := hm _ (lookupAL_mem hl)
          refine ⟨?_, r0, hr0, ?_, ?_⟩
          · simpa [updRow] using hcid
          · simpa [updRow] using hid
          · simpa [updRow] using hcomp
        · exact hm p h1
    · cases hl : lookupAL st.map ca.canvas_id with
      | none =>
        simp only [stepUpcoming, hl]
        intro x hx
        rcases List.mem_append.mp hx with h1 | h1
        · exact hr x h1
        · rcases List.mem_singleton.mp h1 with rfl
          exact ⟨by simp [freshRow], Or.inr ⟨st.ctr, rfl, rfl⟩⟩
      | some row =>
        simp only [stepUpcoming, hl]
        intro x hx
        rcases List.mem_append.mp hx with h1 | h1
        · exact hr x h1
        · rcases List.mem_singleton.mp h1 with rfl
          obtain ⟨hcid, r0, hr0, hid, hcomp⟩ := hm _ (lookupAL_mem hl)
          simp only at hcid hid hcomp
          refine ⟨by simp [updRow, hcid], Or.inl ⟨r0, hr0, ?_, ?_⟩⟩
          · simpa [updRow] using hid
          · simpa [updRow] using hcomp

/-! Lemmas about the leftover loop. -/

theorem completed_eta (r : Record) (h : r.completed = true) :
    { r with completed := true } = r := by
  obtain ⟨i, c, t, co, d, ns, s, comp⟩ := r
  simp only at h
  rw [h]

theorem PL_mem_done (sub proc : List Nat) :
    ∀ (entries : List (Nat × Record)) (cid : Nat) (row : Record),
      (cid, row) ∈ entries → cid ∉ proc → cid ∈ sub →
      { row with completed := true } ∈ (passLeftovers sub proc entries).1 := by
  intro entries
  induction entries with
  | nil => intro cid row h; exact absurd h (List.not_mem_nil _)
  | cons q rest ih =>
    intro cid row hmem hp hs
    obtain ⟨a, b⟩ := q
    have hsub : ∀ x ∈ (passLeftovers sub proc rest).1,
        x ∈ (passLeftovers sub proc ((a, b) :: rest)).1 := by
      intro x hx
      simp only [passLeftovers]
      split
      · exact hx
      · split
        · split <;> exact List.mem_cons_of_mem _ hx
        · split
          · exact List.mem_cons_of_mem _ hx
          · exact hx
    rcases List.mem_cons.mp hmem with heq | hmem2
    · injection heq with h1 h2
      subst h1; subst h2
      simp only [passLeftovers, if_neg hp, if_pos hs]
      by_cases hc : row.completed
      · simp only [hc, if_pos]
        exact (completed_eta row hc) ▸ List.mem_cons_self _ _
      · simp only [hc, if_neg, Bool.false_eq_true, not_false_iff]
        exact List.mem_cons_self _ _
    · exact hsub _ (ih cid row hmem2 hp hs)

theorem PL_ac (sub proc : List Nat) :
    ∀ entries : List (Nat × Record),
      (passLeftovers sub proc entries).2.1 =
        (entries.filter fun p =>
          !decide (p.1 ∈ proc) && decide (p.1 ∈ sub) && !p.2.completed).length := by
  intro entries
  induction entries with
  | nil => simp [passLeftovers]
  | cons q rest ih =>
    obtain ⟨a, b⟩ := q
    by_cases hp : a ∈ proc
    · simp [passLeftovers, hp, List.filter_cons, ih]
    · by_cases hs : a ∈ sub
      · by_cases hc : b.completed
        · simp [passLeftovers, hp, hs, hc, List.filter_cons, ih]
        · simp [passLeftovers, hp, hs, hc, List.filter_cons, ih]
      · by_cases hc : b.completed
        · simp [passLeftovers, hp, hs, hc, List.filter_cons, ih]
        · simp [passLeftovers, hp, hs, hc, List.filter_cons, ih]

theorem PL_src (sub proc : List Nat) :
    ∀ entries : List (Nat × Record),
      ∀ x ∈ (passLeftovers sub proc entries).1,
        ∃ p ∈ entries, x = p.2 ∨ x = { p.2 with completed := true } := by
  intro entries
  induction entries with
  | nil => intro x hx; simp [passLeftovers] at hx
  | cons q rest ih =>
    intro x hx
    obtain ⟨a, b⟩ := q
    have step : ∀ y ∈ (passLeftovers sub proc rest).1,
        ∃ p ∈ (a, b) :: rest, y = p.2 ∨ y = { p.2 with completed := true } := by
      intro y hy
      obtain ⟨p, hp, hyp⟩ := ih y hy
      exact ⟨p, List.mem_cons_of_mem _ hp, hyp⟩
    simp only [passLeftovers] at hx
    split at hx
    · exact step x hx
    · split at hx
      · split at hx
        · rcases List.mem_cons.mp hx with h1 | h2
          · exact ⟨(a, b), List.mem_cons_self _ _, Or.inl h1⟩
          · exact step x h2
        · rcases List.mem_cons.mp hx with h1 | h2
          · exact ⟨(a, b), List.mem_cons_self _ _, Or.inr h1⟩
          · exact step x h2
      · split at hx
        · rcases List.mem_cons.mp hx with h1 | h2
          · exact ⟨(a, b), List.mem_cons_self _ _, Or.inl h1⟩
          · exact step x h2
        · exact step x hx

/-! Characterizations of sync in terms of its two loops. -/

theorem sync_fst (fresh : Nat → String) (cm : List (Nat × String))
    (ups : List RemoteAssignment) (sub : List Nat) (existing : List Record) :
    (sync fresh cm ups sub existing).1 =
      manualRows existing ++
        ((syncStA fresh ups existing).rows ++ (syncLF fresh ups sub existing).1) :=
  rfl

theorem sync_auto (fresh : Nat → String) (cm : List (Nat × String))
    (ups : List RemoteAssignment) (sub : List Nat) (existing : List Record) :
    (sync fresh cm ups sub existing).2.auto_completed =
      (syncLF fresh ups sub existing).2.1 :=
  rfl

theorem syncStA_processed (fresh : Nat → String) (ups : List RemoteAssignment)
    (existing : List Record) (cid : Nat) :
    cid ∈ (syncStA fresh ups existing).processed ↔
      cid ∈ ups.map fun a => a.canvas_id := by
  rw [syncStA, PU_processed]
  simp

theorem syncStA_lookup (fresh : Nat → String) (ups : List RemoteAssignment)
    (existing : List Record) (cid : Nat)
    (h : cid ∉ ups.map fun a => a.canvas_id) :
    lookupAL (syncStA fresh ups existing).map cid =
      lookupAL (buildByCanvasId existing) cid := by
  rw [syncStA, PU_lookup]
  exact h

theorem syncStA_inv (fresh : Nat → String) (ups : List RemoteAssignment)
    (existing : List Record) :
    MapOK existing (syncStA fresh ups existing).map ∧
      ∀ x ∈ (syncStA fresh ups existing).rows, RowOK fresh existing x := by
  rw [syncStA]
  exact PU_inv fresh existing ups _ (build_MapOK existing) (by simp)

/-- The auto_completed counter of sync counts exactly the by_canvas_id
entries that are no longer upcoming, are known submitted or graded, and
were not completed before. -/
theorem sync_auto_eq (fresh : Nat → String) (cm : List (Nat × String))
    (ups : List RemoteAssignment) (sub : List Nat) (existing : List Record) :
    (sync fresh cm ups sub existing).2.auto_completed =
      ((buildByCanvasId existing).filter
        (autoPred (ups.map fun a => a.canvas_id) sub)).length := by
  rw [sync_auto, syncLF, PL_ac]
  have h1 : (syncStA fresh ups existing).map.filter
      (fun p => !decide (p.1 ∈ (syncStA fresh ups existing).processed) &&
        decide (p.1 ∈ sub) && !p.2.completed) =
      (syncStA fresh ups existing).map.filter
        (autoPred (ups.map fun a => a.canvas_id) sub) := by
    refine List.filter_congr ?_
    intro p _
    have := syncStA_processed fresh ups existing p.1
    simp only [autoPred]
    rw [decide_eq_decide.mpr this]
  rw [h1, syncStA]
  have h2 := PU_filter fresh ups (autoPred (ups.map fun a => a.canvas_id) sub)
    (by
      intro ca hca w
      have hin : ca.canvas_id ∈ ups.map fun a => a.canvas_id :=
        List.mem_map_of_mem (fun a => a.canvas_id) hca
      simp [autoPred, hin])
    { map := buildByCanvasId existing
      rows := []
      added := 0
      updated := 0
      processed := []
      ctr := 0 }
  rw [h2]

/-! Lemmas about one run_checks iteration. -/

theorem checkOne_completed (today : Int) (r : Record) :
    (checkOne today r).1.completed = r.completed := by
  cases h : r.due_date with
  | none => simp [checkOne, h]
  | some due =>
    simp only [checkOne, h]
    split_ifs <;> rfl

theorem checkOne_sent_append (today : Int) (r : Record) :
    ∃ l, (checkOne today r).1.notifications_sent = r.notifications_sent ++ l := by
  cases h : r.due_date with
  | none => exact ⟨[], by simp [checkOne, h]⟩
  | some due =>
    simp only [checkOne, h]
    split_ifs
    · exact ⟨[], by simp⟩
    · exact ⟨["3_days"], rfl⟩
    · exact ⟨["1_day"], rfl⟩
    · exact ⟨["morning"], rfl⟩
    · exact ⟨[], by simp⟩

theorem checkOne_fired_sent (today : Int) (r : Record) (m : String)
    (h : m ∈ (checkOne today r).2) :
    m ∈ (checkOne today r).1.notifications_sent := by
  cases hd : r.due_date with
  | none => simp [checkOne, hd] at h
  | some due =>
    simp only [checkOne, hd] at h ⊢
    split_ifs at h ⊢ <;>
      simp_all [List.mem_append]

theorem checkOne_no_refire (today : Int) (r : Record) (m : String)
    (h : m ∈ r.notifications_sent) : m ∉ (checkOne today r).2 := by
  cases hd : r.due_date with
  | none => simp [checkOne, hd]
  | some due =>
    simp only [checkOne, hd]
    split_ifs with h1 h2 h3 h4
    · simp
    · rcases h2 with ⟨_, hn⟩
      simp only [List.mem_singleton]
      intro hm
      exact hn (hm ▸ h)
    · rcases h3 with ⟨_, hn⟩
      simp only [List.mem_singleton]
      intro hm
      exact hn (hm ▸ h)
    · rcases h4 with ⟨_, hn⟩
      simp only [List.mem_singleton]
      intro hm
      exact hn (hm ▸ h)
    · simp

theorem checkStep_sent_mono (today : Int) (r : Record) (m : String)
    (h : m ∈ r.notifications_sent) :
    m ∈ (checkStep today r).notifications_sent := by
  obtain ⟨l, hl⟩ := checkOne_sent_append today r
  rw [checkStep, hl]
  exact List.mem_append_left _ h

theorem sent_mono_iter (today : Int) (r : Record) (m : String) :
    ∀ k n : Nat, n ≤ k →
      m ∈ ((checkStep today)^[n] r).notifications_sent →
      m ∈ ((checkStep today)^[k] r).notifications_sent := by
  intro k
  induction k with
  | zero =>
    intro n hn h
    rw [Nat.le_zero.mp hn] at h
    exact h
  | succ k ih =>
    intro n hn h
    rcases Nat.lt_or_ge n (k + 1) with hlt | hge
    · rw [Function.iterate_succ_apply']
      exact checkStep_sent_mono today _ m (ih n (Nat.lt_succ_iff.mp hlt) h)
    · have : n = k + 1 := Nat.le_antisymm hn hge
      rw [this] at h
      exact h

/-! The claims. -/

/-- Claim C1: the spec asserts that remote_id (canvas_id) values among the
records surviving reconciliation are pairwise distinct even when
remote_upcoming itself contains two entries with the same canvas_id, and
the code docstring asserts that Canvas assignments are keyed by canvas_id
so they never duplicate.  The code violates this: with two upcoming
entries sharing canvas_id 5 and an empty local store, the upcoming loop
takes the synthesize branch twice and the output holds two records with
canvas_id 5. -/
theorem sync_duplicate_canvas_id :
    ((sync (fun n => toString n) []
        [{ canvas_id := 5, title := "A", course := "X", due_date := 10 },
         { canvas_id := 5, title := "B", course := "X", due_date := 11 }] [] []).1.map
      fun r => r.canvas_id) = [some 5, some 5] ∧
    ¬ ((sync (fun n => toString n) []
        [{ canvas_id := 5, title := "A", course := "X", due_date := 10 },
         { canvas_id := 5, title := "B", course := "X", due_date := 11 }] [] []).1.map
      fun r => r.canvas_id).Nodup := by
  constructor
  · decide
  · decide

/-- Claim C2, counterexample: with one enrolled course and no upcoming
assignments, the courses field of the summary is 1 while the number of
distinct course_name values occurring in remote_upcoming is 0, so the
claim as stated is false. -/
theorem courses_count_cex :
    ¬ ((sync (fun _ => "u") [(1, "Math")] [] [] []).2.courses =
        specCourseCount []) := by
  decide

/-- Claim C2, amended: the courses field of the summary returned by the
reconciliation equals the number of enrolled courses fetched (the size of
course_map), independent of remote_upcoming, remote_done_ids and the local
records. -/
theorem courses_eq_course_map_length (fresh : Nat → String)
    (cm : List (Nat × String)) (ups : List RemoteAssignment) (sub : List Nat)
    (existing : List Record) :
    (sync fresh cm ups sub existing).2.courses = cm.length :=
  rfl

/-- Claim C3: every local record without a remote_id (manual record)
appears in the reconciliation output byte-identical to its input form,
never mutated, overwritten or deleted: the sublist of records without a
canvas_id in the output equals, in order and content, the sublist of
records without a canvas_id in the input, whatever remote_upcoming and
remote_done_ids hold. -/
theorem manual_records_passthrough (fresh : Nat → String)
    (cm : List (Nat × String)) (ups : List RemoteAssignment) (sub : List Nat)
    (existing : List Record) :
    (sync fresh cm ups sub existing).1.filter (fun r => r.canvas_id.isNone) =
      existing.filter fun r => r.canvas_id.isNone := by
  rw [sync_fst, List.filter_append, List.filter_append]
  have hman : (manualRows existing).filter (fun r => r.canvas_id.isNone) =
      existing.filter fun r => r.canvas_id.isNone := by
    rw [manualRows]
    refine List.filter_eq_self.mpr ?_
    intro a ha
    exact (List.mem_filter.mp ha).2
  have h2 : (syncStA fresh ups existing).rows.filter
      (fun r => r.canvas_id.isNone) = [] := by
    rw [List.filter_eq_nil_iff]
    intro a ha
    obtain ⟨hcid, _⟩ := (syncStA_inv fresh ups existing).2 a ha
    rw [Option.isNone_iff_eq_none]
    exact hcid
  have h3 : (syncLF fresh ups sub existing).1.filter
      (fun r => r.canvas_id.isNone) = [] := by
    rw [List.filter_eq_nil_iff]
    intro a ha
    have ha2 : a ∈ (passLeftovers sub (syncStA fresh ups existing).processed
        (syncStA fresh ups existing).map).1 := ha
    obtain ⟨p, hp, hcase⟩ := PL_src _ _ _ a ha2
    obtain ⟨hcid, _⟩ := (syncStA_inv fresh ups existing).1 p hp
    rw [Option.isNone_iff_eq_none]
    rcases hcase with rfl | rfl
    · simp [hcid]
    · show ({ p.2 with completed := true } : Record).canvas_id = none → False
      simp [hcid]
  rw [hman, h2, h3, List.append_nil, List.append_nil]

/-- Claim C9: if the course-list fetch (or authentication) fails, the sync
operation fails as a whole and the assignments store is left untouched; if
the whole computation succeeds, the store is replaced by the full merged
record list.  Nothing in between can occur. -/
theorem fatal_fetch_no_write (fresh : Nat → String)
    (ups : List RemoteAssignment) (sub : List Nat) (store : List Record)
    (e : String) (cm : List (Nat × String)) :
    syncOp (Except.error e) fresh ups sub store = (store, Except.error e) ∧
    syncOp (Except.ok cm) fresh ups sub store =
      ((sync fresh cm ups sub store).1,
        Except.ok (sync fresh cm ups sub store).2) :=
  ⟨rfl, rfl⟩

/-- Claim C4: a record with completed = true in the input of either core
component still has completed = true wherever it appears in the output:
any output record of sync carrying the id of a completed input record is
completed (assuming ids are unique and the uuid supply avoids existing
ids), and one run_checks step never changes the completed flag at all. -/
theorem completed_never_reverted (fresh : Nat → String)
    (cm : List (Nat × String)) (ups : List RemoteAssignment) (sub : List Nat)
    (existing : List Record) (r r2 : Record) (today : Int) (rc : Record)
    (hids : (existing.map fun x => x.id).Nodup)
    (hfresh : ∀ n, fresh n ∉ existing.map fun x => x.id)
    (hr : r ∈ existing) (hc : r.completed = true)
    (hr2 : r2 ∈ (sync fresh cm ups sub existing).1) (hid : r2.id = r.id) :
    r2.completed = true ∧ (checkStep today rc).completed = rc.completed := by
  refine ⟨?_, checkOne_completed today rc⟩
  have hinj : ∀ a ∈ existing, ∀ b ∈ existing, a.id = b.id → a = b :=
    fun a ha b hb hab => List.inj_on_of_nodup_map hids ha hb hab
  rw [sync_fst] at hr2
  rcases List.mem_append.mp hr2 with hm | hm
  · rw [manualRows] at hm
    have hmem : r2 ∈ existing := (List.mem_filter.mp hm).1
    rw [hinj r2 hmem r hr hid]
    exact hc
  · rcases List.mem_append.mp hm with hm1 | hm2
    · obtain ⟨_, hcase⟩ := (syncStA_inv fresh ups existing).2 r2 hm1
      rcases hcase with ⟨r0, hr0, hid0, hcomp0⟩ | ⟨n, hidn, _⟩
      · have hr0r : r0 = r := hinj r0 hr0 r hr (by rw [← hid0]; exact hid)
        rw [hcomp0, hr0r]
        exact hc
      · exfalso
        have hfr : fresh n = r.id := by rw [← hidn]; exact hid
        have : fresh n ∈ existing.map fun x => x.id := by
          rw [hfr]
          exact List.mem_map_of_mem _ hr
        exact hfresh n this
    · have hm2b : r2 ∈ (passLeftovers sub
          (syncStA fresh ups existing).processed
          (syncStA fresh ups existing).map).1 := hm2
      obtain ⟨p, hp, hcase⟩ := PL_src _ _ _ r2 hm2b
      obtain ⟨_, r0, hr0, hid0, hcomp0⟩ := (syncStA_inv fresh ups existing).1 p hp
      rcases hcase with rfl | rfl
      · have hr0r : r0 = r := hinj r0 hr0 r hr (by rw [← hid0]; exact hid)
        rw [hcomp0, hr0r]
        exact hc
      · rfl

/-- Witness for C4 at a concrete input: a completed record refreshed by an
upcoming entry keeps completed = true, and the milestone step leaves the
completed flag alone. -/
theorem completed_never_reverted_w :
    (updRow wRec wCa).completed = true ∧
      (checkStep 0 wRec).completed = wRec.completed :=
  completed_never_reverted (fun _ => "zz") [] [wCa] [] [wRec] wRec
    (updRow wRec wCa) 0 wRec (by decide)
    (fun _ => by
      show "zz" ∉ List.map (fun x => x.id) [wRec]
      decide)
    (by decide) (by decide) (by decide) (by decide)

/-- Claim C5: a local remote-origin record whose canvas_id is no longer
upcoming but is in the submitted/graded set is kept with completed forced
to true (whatever its previous completed value), and the auto_completed
summary field counts exactly the dict entries that are not upcoming, are
in the done set, and were previously uncompleted. -/
theorem done_records_kept_completed (fresh : Nat → String)
    (cm : List (Nat × String)) (ups : List RemoteAssignment) (sub : List Nat)
    (existing : List Record) (cid : Nat) (r : Record)
    (hlook : lookupAL (buildByCanvasId existing) cid = some r)
    (hnot : cid ∉ ups.map fun a => a.canvas_id)
    (hdone : cid ∈ sub) :
    { r with completed := true } ∈ (sync fresh cm ups sub existing).1 ∧
    (sync fresh cm ups sub existing).2.auto_completed =
      ((buildByCanvasId existing).filter
        (autoPred (ups.map fun a => a.canvas_id) sub)).length := by
  refine ⟨?_, sync_auto_eq fresh cm ups sub existing⟩
  rw [sync_fst]
  refine List.mem_append_right _ (List.mem_append_right _ ?_)
  have hl2 : lookupAL (syncStA fresh ups existing).map cid = some r := by
    rw [syncStA_lookup fresh ups existing cid hnot]
    exact hlook
  have hmem : (cid, r) ∈ (syncStA fresh ups existing).map := lookupAL_mem hl2
  have hproc : cid ∉ (syncStA fresh ups existing).processed := by
    rw [syncStA_processed]
    exact hnot
  exact PL_mem_done sub _ _ cid r hmem hproc hdone

/-- Witness for C5 at a concrete input: an uncompleted record with
canvas_id 7, absent from upcoming and present in the done set, survives
force-completed and is counted. -/
theorem done_records_kept_completed_w :
    { wRec7 with completed := true } ∈
      (sync (fun _ => "u") [] [] [7] [wRec7]).1 ∧
    (sync (fun _ => "u") [] [] [7] [wRec7]).2.auto_completed =
      ((buildByCanvasId [wRec7]).filter
        (autoPred (([] : List RemoteAssignment).map fun a => a.canvas_id)
          [7])).length :=
  done_records_kept_completed (fun _ => "u") [] [] [7] [wRec7] 7 wRec7
    (by decide) (by decide) (by decide)

/-- Claim C10: when a canvas_id appears both in remote_upcoming and in the
done set, the upcoming branch wins: the record is kept with title, course
and due_date overwritten from the upcoming entry, its completed flag is
unchanged, and its entry is excluded from the auto_completed count. -/
theorem upcoming_precedence (fresh : Nat → String) (cm : List (Nat × String))
    (ups : List RemoteAssignment) (sub : List Nat) (existing : List Record)
    (ca : RemoteAssignment) (r : Record)
    (hmem : ca ∈ ups)
    (hnod : (ups.map fun a => a.canvas_id).Nodup)
    (hlook : lookupAL (buildByCanvasId existing) ca.canvas_id = some r)
    (_hdone : ca.canvas_id ∈ sub) :
    updRow r ca ∈ (sync fresh cm ups sub existing).1 ∧
    (updRow r ca).completed = r.completed ∧
    (sync fresh cm ups sub existing).2.auto_completed =
      ((buildByCanvasId existing).filter
        (autoPred (ups.map fun a => a.canvas_id) sub)).length ∧
    ca.canvas_id ∉ ((buildByCanvasId existing).filter
      (autoPred (ups.map fun a => a.canvas_id) sub)).map Prod.fst := by
  refine ⟨?_, rfl, sync_auto_eq fresh cm ups sub existing, ?_⟩
  · rw [sync_fst]
    refine List.mem_append_right _ (List.mem_append_left _ ?_)
    exact PU_hits fresh ups _ ca r hmem hnod hlook
  · intro hin
    obtain ⟨p, hp, hpeq⟩ := List.mem_map.mp hin
    have hpred := List.of_mem_filter hp
    have hup : p.1 ∈ ups.map fun a => a.canvas_id := by
      rw [hpeq]
      exact List.mem_map_of_mem (fun a => a.canvas_id) hmem
    simp [autoPred, hup] at hpred

/-- Witness for C10 at a concrete input: canvas_id 9 in both upcoming and
done; the row gets the upcoming fields, stays uncompleted, and nothing is
auto-completed. -/
theorem upcoming_precedence_w :
    updRow wRec9 wCa9 ∈ (sync (fun _ => "u") [] [wCa9] [9] [wRec9]).1 ∧
    (updRow wRec9 wCa9).completed = wRec9.completed ∧
    (sync (fun _ => "u") [] [wCa9] [9] [wRec9]).2.auto_completed =
      ((buildByCanvasId [wRec9]).filter
        (autoPred ([wCa9].map fun a => a.canvas_id) [9])).length ∧
    wCa9.canvas_id ∉ ((buildByCanvasId [wRec9]).filter
      (autoPred ([wCa9].map fun a => a.canvas_id) [9])).map Prod.fst :=
  upcoming_precedence (fun _ => "u") [] [wCa9] [9] [wRec9] wCa9 wRec9
    (by decide) (by decide) (by decide) (by decide)

/-- Claim C6: for a record that is not past due, each milestone fires in a
single check exactly when days_until equals its value and its tag is not
yet in notifications_sent, and a fired tag is recorded in the updated
notifications_sent of the output record.  The three conditions are
mutually exclusive, so the elif chain of the code fires every milestone
whose condition holds in the same pass. -/
theorem milestone_fires_iff (today due : Int) (r : Record)
    (hdue : r.due_date = some due) (hnn : 0 ≤ due - today) :
    (("3_days" ∈ (checkOne today r).2 ↔
        (due - today = 3 ∧ "3_days" ∉ r.notifications_sent)) ∧
      ("3_days" ∈ (checkOne today r).2 →
        "3_days" ∈ (checkOne today r).1.notifications_sent)) ∧
    (("1_day" ∈ (checkOne today r).2 ↔
        (due - today = 1 ∧ "1_day" ∉ r.notifications_sent)) ∧
      ("1_day" ∈ (checkOne today r).2 →
        "1_day" ∈ (checkOne today r).1.notifications_sent)) ∧
    (("morning" ∈ (checkOne today r).2 ↔
        (due - today = 0 ∧ "morning" ∉ r.notifications_sent)) ∧
      ("morning" ∈ (checkOne today r).2 →
        "morning" ∈ (checkOne today r).1.notifications_sent)) := by
  have hneg : ¬ (due - today < 0) := by omega
  refine ⟨⟨?_, checkOne_fired_sent today r "3_days"⟩,
    ⟨?_, checkOne_fired_sent today r "1_day"⟩,
    ⟨?_, checkOne_fired_sent today r "morning"⟩⟩ <;>
  · simp only [checkOne, hdue, if_neg hneg]
    split_ifs with h1 h2 h3 <;> simp_all

/-- Witness for C6 at a concrete input: a record due in three days with an
empty notifications_sent set, checked on day 0. -/
theorem milestone_fires_iff_w :
    (("3_days" ∈ (checkOne 0 wDue3).2 ↔
        ((3 : Int) - 0 = 3 ∧ "3_days" ∉ wDue3.notifications_sent)) ∧
      ("3_days" ∈ (checkOne 0 wDue3).2 →
        "3_days" ∈ (checkOne 0 wDue3).1.notifications_sent)) ∧
    (("1_day" ∈ (checkOne 0 wDue3).2 ↔
        ((3 : Int) - 0 = 1 ∧ "1_day" ∉ wDue3.notifications_sent)) ∧
      ("1_day" ∈ (checkOne 0 wDue3).2 →
        "1_day" ∈ (checkOne 0 wDue3).1.notifications_sent)) ∧
    (("morning" ∈ (checkOne 0 wDue3).2 ↔
        ((3 : Int) - 0 = 0 ∧ "morning" ∉ wDue3.notifications_sent)) ∧
      ("morning" ∈ (checkOne 0 wDue3).2 →
        "morning" ∈ (checkOne 0 wDue3).1.notifications_sent)) :=
  milestone_fires_iff 0 3 wDue3 rfl (by decide)

/-- Claim C7: repeated milestone checks with the same today, each starting
from the previous output records, never shrink notifications_sent (one
step extends it, as a sublist in order), and a tag fired at step n is in
the persisted set from step n + 1 on and hence never fires again at any
later step; run_checks processes records positionally by checkStep. -/
theorem milestones_no_refire (today : Int) (rs : List Record) (r : Record)
    (n k : Nat) (m : String)
    (hm : m ∈ (checkOne today ((checkStep today)^[n] r)).2) (hnk : n < k) :
    (runChecks today rs).1 = (rs.map fun x => checkStep today x) ∧
    List.Sublist (((checkStep today)^[n] r).notifications_sent)
      (((checkStep today)^[n + 1] r).notifications_sent) ∧
    m ∉ (checkOne today ((checkStep today)^[k] r)).2 := by
  refine ⟨rfl, ?_, ?_⟩
  · obtain ⟨l, hl⟩ := checkOne_sent_append today ((checkStep today)^[n] r)
    rw [Function.iterate_succ_apply', checkStep, hl]
    exact List.sublist_append_left _ _
  · have h1 : m ∈ ((checkStep today)^[n + 1] r).notifications_sent := by
      rw [Function.iterate_succ_apply']
      exact checkOne_fired_sent today _ m hm
    have h2 : m ∈ ((checkStep today)^[k] r).notifications_sent :=
      sent_mono_iter today r m k (n + 1) hnk h1
    exact checkOne_no_refire today _ m h2

/-- Witness for C7 at a concrete input: the 3_days tag fires on the first
check of the record due in three days and does not fire on the second
check the same day. -/
theorem milestones_no_refire_w :
    (runChecks 0 [wDue3]).1 = ([wDue3].map fun x => checkStep 0 x) ∧
    List.Sublist (((checkStep 0)^[0] wDue3).notifications_sent)
      (((checkStep 0)^[0 + 1] wDue3).notifications_sent) ∧
    "3_days" ∉ (checkOne 0 ((checkStep 0)^[1] wDue3)).2 :=
  milestones_no_refire 0 [wDue3] wDue3 0 1 "3_days" (by decide) (by decide)

/-- Claim C8: a record strictly past due is skipped entirely by the
milestone check: nothing fires and the record, notifications_sent
included, is returned unchanged whatever the set holds. -/
theorem past_due_skipped (today due : Int) (r : Record)
    (h1 : r.due_date = some due) (h2 : due - today < 0) :
    checkOne today r = (r, []) := by
  simp only [checkOne, h1]
  rw [if_pos h2]

/-- Witness for C8 at a concrete input: a record due on day 0 checked on
day 5 is returned unchanged with nothing fired. -/
theorem past_due_skipped_w : checkOne 5 wPast = (wPast, []) :=
  past_due_skipped 5 0 wPast rfl (by decide)

end CourseCore
